import Mathlib

/-!
Shallow embedding of the Thrift-Store-Middleware Go proxy
(src/unnamed/part_000, the pipeline variant with rate limiting and CORS
handling; src/main.go is an earlier variant of the same handler).

Machine integers are modelled as `Int`; Go `time.Time`/`time.Duration`
values are modelled as `Int` nanosecond counts, matching `time.Minute`.
Go strings are modelled as Lean `String` / `List Char`.
-/

namespace Middleware

/-! ### Rate limiter (part_000 lines 31-91) -/

/-- Go constant `maxRequestsPerMinute = 50` (part_000 line 34). -/
def maxRequestsPerMinute : Nat := 50

/-- Go constant `rateLimitWindow = time.Minute`, in nanoseconds
(part_000 line 35). -/
def rateLimitWindow : Int := 60 * 1000000000

/-- The pruning loop of `isRateLimited` (part_000 lines 73-78): keep the
timestamps `t` with `now.Sub(t) <= rateLimitWindow`. -/
def pruneTimestamps (now : Int) (requests : List Int) : List Int :=
  requests.filter (fun t => decide (now - t ≤ rateLimitWindow))

/-- Go `isRateLimited` (part_000 lines 68-91) acting on one client's entry
of `rateLimitStore`.  Returns (limited?, the entry written back): prune,
deny when the pruned count reaches the limit (writing back only the pruned
list), otherwise append `now` and allow. -/
def isRateLimited (now : Int) (requests : List Int) : Bool × List Int :=
  let recentRequests := pruneTimestamps now requests
  if maxRequestsPerMinute ≤ recentRequests.length then
    (true, recentRequests)
  else
    (false, recentRequests ++ [now])

/-- A sequence of admission checks for one client, threaded through the
client's stored entry; returns the per-call `isRateLimited` results and
the final entry. -/
def runCalls : List Int → List Int → List Bool × List Int
  | entry, [] => ([], entry)
  | entry, now :: rest =>
    let r := isRateLimited now entry
    let k := runCalls r.2 rest
    (r.1 :: k.1, k.2)

/-! ### Sanitizer (part_000 lines 29, 38-40) -/

/-- The character class of the regexp `[;&*+#=<>-]` (part_000 line 29). -/
def dangerousChars : List Char := [';', '&', '*', '+', '#', '=', '<', '>', '-']

/-- `dangerousChars.ReplaceAllString(query, "")` on the character list:
each leftmost match of the single-character class is replaced by the empty
string, i.e. every occurrence of a listed character is dropped. -/
def sanitizeChars : List Char → List Char
  | [] => []
  | c :: rest =>
    if c ∈ dangerousChars then sanitizeChars rest else c :: sanitizeChars rest

/-- Go `sanitizeGraphQLQuery` (part_000 lines 38-40). -/
def sanitizeGraphQLQuery (query : String) : String :=
  String.mk (sanitizeChars query.data)

theorem sanitizeChars_eq_filter (l : List Char) :
    sanitizeChars l = l.filter (fun c => decide (c ∉ dangerousChars)) := by
  induction l with
  | nil => rfl
  | cons c rest ih =>
    by_cases h : c ∈ dangerousChars <;>
      simp [sanitizeChars, List.filter_cons, h, ih]

theorem sanitizeChars_sublist (l : List Char) :
    (sanitizeChars l).Sublist l := by
  rw [sanitizeChars_eq_filter]; exact List.filter_sublist l

/-! ### Rate limiter lemmas -/

theorem pruneTimestamps_eq_self (now : Int) (l : List Int)
    (h : ∀ t ∈ l, now - t ≤ rateLimitWindow) :
    pruneTimestamps now l = l := by
  unfold pruneTimestamps
  exact List.filter_eq_self.mpr (fun t ht => by simpa using h t ht)

theorem pruneTimestamps_eq_nil (now : Int) (l : List Int)
    (h : ∀ t ∈ l, rateLimitWindow < now - t) :
    pruneTimestamps now l = [] := by
  unfold pruneTimestamps
  exact List.filter_eq_nil_iff.mpr (fun t ht => by simpa using not_le.mpr (h t ht))

/-- Invariant for a burst of calls that all lie within one window of each
other and of every timestamp already stored: nothing is pruned, every call
up to the limit is allowed, and the entry accumulates the call times. -/
theorem runCalls_all_allowed (times : List Int) : ∀ (entry : List Int),
    (∀ s ∈ times, ∀ t ∈ entry ++ times, s - t ≤ rateLimitWindow) →
    entry.length + times.length ≤ maxRequestsPerMinute →
    (runCalls entry times).1 = List.replicate times.length false ∧
      (runCalls entry times).2 = entry ++ times := by
  induction times with
  | nil => intro entry _ _; simp [runCalls]
  | cons n rest ih =>
    intro entry hwin hlen
    have hn : ∀ t ∈ entry, n - t ≤ rateLimitWindow := by
      intro t ht
      exact hwin n (List.mem_cons_self n rest) t
        (List.mem_append_left _ ht)
    have hprune : pruneTimestamps n entry = entry :=
      pruneTimestamps_eq_self n entry hn
    have hokl : ¬ maxRequestsPerMinute ≤ entry.length := by
      simp only [List.length_cons] at hlen; omega
    have hstep : isRateLimited n entry = (false, entry ++ [n]) := by
      simp [isRateLimited, hprune, hokl]
    have hwin' : ∀ s ∈ rest, ∀ t ∈ (entry ++ [n]) ++ rest,
        s - t ≤ rateLimitWindow := by
      intro s hs t ht
      apply hwin s (List.mem_cons_of_mem _ hs)
      simp only [List.append_assoc, List.mem_append, List.mem_cons,
        List.mem_singleton] at ht ⊢
      tauto
    have hlen' : (entry ++ [n]).length + rest.length ≤ maxRequestsPerMinute := by
      simp only [List.length_append, List.length_cons,
        List.length_nil] at hlen ⊢
      omega
    have hrec := ih (entry ++ [n]) hwin' hlen'
    constructor
    · show (runCalls entry (n :: rest)).1 = _
      simp only [runCalls, hstep, hrec.1, List.length_cons,
        List.replicate_succ]
    · show (runCalls entry (n :: rest)).2 = _
      simp only [runCalls, hstep, hrec.2, List.append_assoc,
        List.singleton_append]

theorem mem_pruneTimestamps {now t : Int} {l : List Int}
    (h : t ∈ pruneTimestamps now l) : t ∈ l ∧ now - t ≤ rateLimitWindow := by
  simpa [pruneTimestamps] using h

/-! ### The unsynchronized read-modify-write, decomposed (part_000 lines 68-91) -/

/-- The read half of `isRateLimited`'s read-modify-write on the shared
`rateLimitStore` map (part_000 lines 70-78): read the client's entry and
prune it.  The map is not guarded by any lock, so under concurrent
handlers two snapshots may both be taken before either write lands. -/
def rmwSnapshot (now : Int) (stored : List Int) : List Int :=
  pruneTimestamps now stored

/-- The write half (part_000 lines 81-90): write the pruned list back,
and when it is under the limit append `now` and admit. -/
def rmwCommit (now : Int) (recentRequests : List Int) : Bool × List Int :=
  if maxRequestsPerMinute ≤ recentRequests.length then (true, recentRequests)
  else (false, recentRequests ++ [now])

theorem isRateLimited_eq_rmw (now : Int) (entry : List Int) :
    isRateLimited now entry = rmwCommit now (rmwSnapshot now entry) := rfl

/-- One legal interleaving of N concurrent handlers for the same client on
the unsynchronized map: every handler takes its snapshot of the stored
entry before any handler writes, then the commits land one after another
(last write wins). -/
def racyRun (stored : List Int) (nows : List Int) : List Bool × List Int :=
  (nows.map (fun now => (now, rmwSnapshot now stored))).foldl
    (fun acc p =>
      let r := rmwCommit p.1 p.2
      (acc.1 ++ [r.1], r.2))
    ([], stored)

/-! ### Client identity extraction (part_000 lines 56-66) -/

/-- Index of the last occurrence of a character, as Go's
`LastIndexByteString` over the bytes of the address. -/
def lastIdxOf (c : Char) : List Char → Option Nat
  | [] => none
  | x :: xs =>
    match lastIdxOf c xs with
    | some j => some (j + 1)
    | none => if x = c then some 0 else none

/-- Index of the first occurrence of a character, as Go's
`IndexByteString`. -/
def firstIdxOf (c : Char) : List Char → Option Nat
  | [] => none
  | x :: xs => if x = c then some 0 else (firstIdxOf c xs).map (· + 1)

/-- Go stdlib `net.SplitHostPort` (net/ipsock.go) on a character list;
every error return of the original is `none` here (the caller only
branches on success).  The port starts after the last colon; a bracketed
`[host]:port` must close its bracket just before that colon; an
unbracketed host may not itself contain a colon; stray brackets are
errors. -/
def splitHostPortChars (cs : List Char) : Option (List Char × List Char) :=
  match lastIdxOf ':' cs with
  | none => none
  | some i =>
    if cs.head? = some '[' then
      match firstIdxOf ']' cs with
      | none => none
      | some e =>
        if e + 1 = cs.length then none
        else if e + 1 = i then
          if (cs.drop 1).contains '[' then none
          else if (cs.drop (e + 1)).contains ']' then none
          else some ((cs.take e).drop 1, cs.drop (i + 1))
        else none
    else
      if (cs.take i).contains ':' then none
      else if cs.contains '[' then none
      else if cs.contains ']' then none
      else some (cs.take i, cs.drop (i + 1))

/-- `net.SplitHostPort` on strings, `none` for every error. -/
def splitHostPort (hostport : String) : Option (String × String) :=
  (splitHostPortChars hostport.data).map
    (fun p => (String.mk p.1, String.mk p.2))

/-- Go `extractClientIP` (part_000 lines 56-66): host part of the remote
address, the IPv6 loopback mapped onto the IPv4 loopback, and the raw
address verbatim when the split fails. -/
def extractClientIP (remoteAddr : String) : String :=
  match splitHostPort remoteAddr with
  | none => remoteAddr
  | some (ip, _) => if ip = "::1" then "127.0.0.1" else ip

/-! ### Upstream response header stripping (part_000 lines 96-102) -/

/-- A response coming back from the upstream: its headers (names assumed
in Go's canonical MIME form, as `http.Header` stores them) and body. -/
structure UpstreamResponse where
  headers : List (String × String)
  body : List Char

/-- The four header names deleted by the proxy's `ModifyResponse` hook
(part_000 lines 97-100). -/
def corsStrippedNames : List String :=
  ["Access-Control-Allow-Origin", "Access-Control-Allow-Methods",
   "Access-Control-Allow-Headers", "Access-Control-Allow-Credentials"]

/-- The `ModifyResponse` hook (part_000 lines 96-102): delete the four
`Access-Control-Allow-*` headers from the upstream response; everything
else, body included, passes through. -/
def modifyResponse (resp : UpstreamResponse) : UpstreamResponse :=
  ⟨resp.headers.filter (fun h => decide (h.1 ∉ corsStrippedNames)),
   resp.body⟩

/-- The class the spec's words describe: a cross-origin (CORS) response
header, i.e. one of the `Access-Control-*` family.  Stated from the spec,
to be compared with what `modifyResponse` actually strips. -/
def isCORSResponseHeader (name : String) : Bool :=
  "Access-Control-".data.isPrefixOf name.data

/-! ### JSON values (the `map[string]interface{}` payload and what feeds it)

Go's `encoding/json` is standard library, not repository code; it is
modelled here closely enough for the pipeline: `Unmarshal` into a
`map[string]interface{}` succeeds exactly on a syntactically valid
top-level JSON object (leaving the map `nil` on any error and on `null`),
and `Marshal` emits objects with keys sorted bytewise and strings with the
default HTML escaping.  A Go map is represented canonically as an
association list sorted by key (Go map iteration order is irrelevant:
`Marshal` sorts).  JSON numbers are modelled as integers; none of the
claims involves fractional numbers. -/

inductive Json where
  | null : Json
  | bool : Bool → Json
  | num : Int → Json
  | str : List Char → Json
  | arr : List Json → Json
  | obj : List (String × Json) → Json

/-- Lookup in the payload map, Go's `payload[k]`. -/
def lookupField (fields : List (String × Json)) (k : String) : Option Json :=
  match fields with
  | [] => none
  | (k', v) :: rest => if k' = k then some v else lookupField rest k

/-- Map write `payload[k] = v` on the key-sorted association list
representing a Go map: replace the value when the key is present,
otherwise insert at the key's sorted position. -/
def objInsertSorted (k : String) (v : Json) :
    List (String × Json) → List (String × Json)
  | [] => [(k, v)]
  | (k', v') :: rest =>
    if k = k' then (k, v) :: rest
    else if k.data < k'.data then (k, v) :: (k', v') :: rest
    else (k', v') :: objInsertSorted k v rest

/-- JSON insignificant whitespace. -/
def skipWs : List Char → List Char
  | [] => []
  | c :: rest =>
    if c = ' ' ∨ c = '\t' ∨ c = '\n' ∨ c = '\r' then skipWs rest
    else c :: rest

/-- Value of a hexadecimal digit. -/
def hexVal (c : Char) : Option Nat :=
  if '0' ≤ c ∧ c ≤ '9' then some (c.toNat - '0'.toNat)
  else if 'a' ≤ c ∧ c ≤ 'f' then some (c.toNat - 'a'.toNat + 10)
  else if 'A' ≤ c ∧ c ≤ 'F' then some (c.toNat - 'A'.toNat + 10)
  else none

/-- Body of a JSON string after its opening quote: the decoded characters
and the input following the closing quote. -/
def parseStringBody : Nat → List Char → Option (List Char × List Char)
  | 0, _ => none
  | _ + 1, [] => none
  | fuel + 1, c :: rest =>
    if c = '"' then some ([], rest)
    else if c = '\\' then
      match rest with
      | [] => none
      | 'u' :: h1 :: h2 :: h3 :: h4 :: rest' =>
        match hexVal h1, hexVal h2, hexVal h3, hexVal h4 with
        | some a, some b, some c', some d =>
          (parseStringBody fuel rest').map
            (fun p => (Char.ofNat (((a * 16 + b) * 16 + c') * 16 + d) :: p.1,
              p.2))
        | _, _, _, _ => none
      | e :: rest' =>
        match
          (if e = '"' then some '"'
           else if e = '\\' then some '\\'
           else if e = '/' then some '/'
           else if e = 'n' then some '\n'
           else if e = 't' then some '\t'
           else if e = 'r' then some '\r'
           else if e = 'b' then some (Char.ofNat 8)
           else if e = 'f' then some (Char.ofNat 12)
           else none) with
        | none => none
        | some d => (parseStringBody fuel rest').map (fun p => (d :: p.1, p.2))
    else if c.toNat < 32 then none
    else (parseStringBody fuel rest).map (fun p => (c :: p.1, p.2))

/-- Longest leading run of decimal digits. -/
def takeDigits : List Char → List Char × List Char
  | [] => ([], [])
  | c :: rest =>
    if '0' ≤ c ∧ c ≤ '9' then
      let p := takeDigits rest
      (c :: p.1, p.2)
    else ([], c :: rest)

/-- Numeric value of a digit run. -/
def digitsVal (ds : List Char) : Nat :=
  ds.foldl (fun acc c => acc * 10 + (c.toNat - '0'.toNat)) 0

/-- A JSON integer literal.  A fraction or exponent makes the parse fail
in this model (no claim involves non-integer numbers). -/
def parseNumber (cs : List Char) : Option (Json × List Char) :=
  let p := match cs with
    | '-' :: rest => (true, rest)
    | _ => (false, cs)
  match takeDigits p.2 with
  | ([], _) => none
  | (ds, rest) =>
    match rest with
    | '.' :: _ => none
    | 'e' :: _ => none
    | 'E' :: _ => none
    | _ =>
      some (Json.num (if p.1 then -(digitsVal ds : Int) else (digitsVal ds : Int)),
        rest)

mutual

/-- A JSON value with leading whitespace allowed; fuel bounds the nesting
and is in every use at least the input length plus one, which suffices
because every recursive call first consumes a character. -/
def parseValue : Nat → List Char → Option (Json × List Char)
  | 0, _ => none
  | fuel + 1, cs =>
    match skipWs cs with
    | 'n' :: 'u' :: 'l' :: 'l' :: rest => some (Json.null, rest)
    | 't' :: 'r' :: 'u' :: 'e' :: rest => some (Json.bool true, rest)
    | 'f' :: 'a' :: 'l' :: 's' :: 'e' :: rest => some (Json.bool false, rest)
    | '"' :: rest =>
      (parseStringBody (rest.length + 1) rest).map
        (fun p => (Json.str p.1, p.2))
    | '{' :: rest => parseFields fuel rest [] true
    | '[' :: rest => parseElems fuel rest [] true
    | other => parseNumber other

/-- The members of an object after `{` (`first = true`) or after a `,`
(`first = false`, when a closing `}` would be a trailing comma and is
refused); duplicate keys overwrite, as in a Go map. -/
def parseFields : Nat → List Char → List (String × Json) → Bool →
    Option (Json × List Char)
  | 0, _, _, _ => none
  | fuel + 1, cs, acc, first =>
    match skipWs cs with
    | '}' :: rest => if first then some (Json.obj acc, rest) else none
    | '"' :: rest =>
      match parseStringBody (rest.length + 1) rest with
      | none => none
      | some (key, rest1) =>
        match skipWs rest1 with
        | ':' :: rest2 =>
          match parseValue fuel rest2 with
          | none => none
          | some (v, rest3) =>
            match skipWs rest3 with
            | ',' :: rest4 =>
              parseFields fuel rest4 (objInsertSorted (String.mk key) v acc)
                false
            | '}' :: rest4 =>
              some (Json.obj (objInsertSorted (String.mk key) v acc), rest4)
            | _ => none
        | _ => none
    | _ => none

/-- The elements of an array after `[` or after a `,`. -/
def parseElems : Nat → List Char → List Json → Bool →
    Option (Json × List Char)
  | 0, _, _, _ => none
  | fuel + 1, cs, acc, first =>
    match skipWs cs with
    | ']' :: rest => if first then some (Json.arr acc.reverse, rest) else none
    | other =>
      match parseValue fuel other with
      | none => none
      | some (v, rest1) =>
        match skipWs rest1 with
        | ',' :: rest2 => parseElems fuel rest2 (v :: acc) false
        | ']' :: rest2 => some (Json.arr (v :: acc).reverse, rest2)
        | _ => none

end

/-- `json.Unmarshal(bodyBytes, &payload)` for
`payload map[string]interface{}` (part_000 lines 124-125), `none` whenever
the map is left `nil`: on any syntax error, on a valid non-object
top-level value (a type error the handler ignores), and on `null`. -/
def unmarshalToMap (bodyBytes : List Char) :
    Option (List (String × Json)) :=
  match parseValue (bodyBytes.length + 1) bodyBytes with
  | some (Json.obj fields, rest) =>
    if skipWs rest = [] then some fields else none
  | _ => none

/-- Lowercase hexadecimal digit, as `encoding/json` emits in `\u` forms. -/
def hexDigit (n : Nat) : Char :=
  if n < 10 then Char.ofNat (48 + n) else Char.ofNat (87 + n)

/-- `encoding/json` string escaping with the default HTML escaping:
quote, backslash, `<`, `>`, `&`, the common control escapes, other control
characters as `\u00XX`, and the two Unicode line separators. -/
def escapeJsonChar (c : Char) : List Char :=
  if c = '"' then ['\\', '"']
  else if c = '\\' then ['\\', '\\']
  else if c = '<' then ['\\', 'u', '0', '0', '3', 'c']
  else if c = '>' then ['\\', 'u', '0', '0', '3', 'e']
  else if c = '&' then ['\\', 'u', '0', '0', '2', '6']
  else if c = '\n' then ['\\', 'n']
  else if c = '\r' then ['\\', 'r']
  else if c = '\t' then ['\\', 't']
  else if c.toNat < 32 then
    ['\\', 'u', '0', '0', hexDigit (c.toNat / 16), hexDigit (c.toNat % 16)]
  else if c.toNat = 8232 then ['\\', 'u', '2', '0', '2', '8']
  else if c.toNat = 8233 then ['\\', 'u', '2', '0', '2', '9']
  else [c]

/-- A JSON string literal for the given characters. -/
def encodeString (s : List Char) : List Char :=
  '"' :: s.foldr (fun c acc => escapeJsonChar c ++ acc) ['"']

/-- Decimal digits of a natural number (fuel is the number itself, which
bounds the digit count). -/
def natDigitsAux : Nat → Nat → List Char
  | 0, _ => []
  | _ + 1, 0 => []
  | fuel + 1, n => natDigitsAux fuel (n / 10) ++ [Char.ofNat (48 + n % 10)]

/-- Decimal rendering of a natural number. -/
def natToChars (n : Nat) : List Char :=
  if n = 0 then ['0'] else natDigitsAux (n + 1) n

/-- Go's rendering of an integral JSON number. -/
def intToChars (n : Int) : List Char :=
  if n < 0 then '-' :: natToChars n.natAbs else natToChars n.natAbs

mutual

/-- `json.Marshal` of a decoded value: object fields are emitted in the
stored (key-sorted) order, matching Go's sorted-key map marshalling. -/
def encodeJson : Json → List Char
  | Json.null => ['n', 'u', 'l', 'l']
  | Json.bool true => ['t', 'r', 'u', 'e']
  | Json.bool false => ['f', 'a', 'l', 's', 'e']
  | Json.num n => intToChars n
  | Json.str s => encodeString s
  | Json.arr xs => '[' :: encodeElems xs ++ [']']
  | Json.obj fs => '{' :: encodeFields fs ++ ['}']

/-- Comma-separated array elements. -/
def encodeElems : List Json → List Char
  | [] => []
  | [x] => encodeJson x
  | x :: y :: rest => encodeJson x ++ ',' :: encodeElems (y :: rest)

/-- Comma-separated `"key":value` members. -/
def encodeFields : List (String × Json) → List Char
  | [] => []
  | [(k, v)] => encodeString k.data ++ ':' :: encodeJson v
  | (k, v) :: q :: rest =>
    encodeString k.data ++ ':' :: encodeJson v ++ ',' :: encodeFields (q :: rest)

end

/-! ### The request pipeline (part_000 lines 93-148) -/

/-- An inbound request as the handler reads it: method, path, the body
(`none` models a nil `r.Body`), and the remote address. -/
structure HttpRequest where
  method : String
  path : String
  body : Option (List Char)
  remoteAddr : String

/-- The tuple `logToMongo` receives for one request (part_000 line 144;
its `time.Now()` field is the check's `now` and is omitted). -/
structure AuditRecord where
  ip : String
  originalQuery : String
  sanitizedQuery : String
deriving DecidableEq

/-- How the handler terminates for one request. -/
inductive Outcome where
  | preflightOk : Outcome
  | notFound : Outcome
  | rateLimited : Outcome
  | forwarded : List Char → Nat → Outcome
deriving DecidableEq

/-- The local response status the handler writes itself; `none` for a
forwarded request, whose status comes from the upstream. -/
def responseStatus : Outcome → Option Nat
  | Outcome.preflightOk => some 200
  | Outcome.notFound => some 404
  | Outcome.rateLimited => some 429
  | Outcome.forwarded _ _ => none

/-- The local response body the handler writes itself (`http.Error`
appends a newline); `none` for a forwarded request. -/
def responseBody : Outcome → Option (List Char)
  | Outcome.preflightOk => some []
  | Outcome.notFound => some "Not Found\n".data
  | Outcome.rateLimited => some "Rate limit exceeded\n".data
  | Outcome.forwarded _ _ => none

/-- The shared `rateLimitStore` map (part_000 line 31). -/
abbrev Store := List (String × List Int)

/-- Go map read with zero value `[]` for an absent key. -/
def storeGet (s : Store) (ip : String) : List Int :=
  match s with
  | [] => []
  | (k, v) :: rest => if k = ip then v else storeGet rest ip

/-- Go map write. -/
def storeSet (s : Store) (ip : String) (entry : List Int) : Store :=
  match s with
  | [] => [(ip, entry)]
  | (k, v) :: rest =>
    if k = ip then (ip, entry) :: rest else (k, v) :: storeSet rest ip entry

/-- The `query` string the handler extracts (part_000 line 130): the value
of the `query` field when it is present and is a string, empty otherwise
(also when the whole payload is nil). -/
def extractedQuery (payload : Option (List (String × Json))) : List Char :=
  match payload with
  | none => []
  | some fields =>
    match lookupField fields "query" with
    | some (Json.str q) => q
    | _ => []

/-- The rewrite step (part_000 lines 130-134): when the payload has a
string-typed `query` field, overwrite it with the sanitized text;
otherwise the payload is left untouched (a nil payload stays nil). -/
def rewriteQuery :
    Option (List (String × Json)) → Option (List (String × Json))
  | none => none
  | some fields =>
    match lookupField fields "query" with
    | some (Json.str q) =>
      some (objInsertSorted "query" (Json.str (sanitizeChars q)) fields)
    | _ => some fields

/-- `json.Marshal(payload)` (part_000 line 136): a nil map marshals to the
four bytes `null`. -/
def marshalPayload : Option (List (String × Json)) → List Char
  | none => ['n', 'u', 'l', 'l']
  | some fields => encodeJson (Json.obj fields)

/-- The three response headers the handler sets on every request
(part_000 lines 105-107). -/
def corsHeaders : List (String × String) :=
  [("Access-Control-Allow-Origin", "http://localhost:3000"),
   ("Access-Control-Allow-Methods", "POST, OPTIONS"),
   ("Access-Control-Allow-Headers", "Content-Type, Authorization")]

/-- Everything observable about one run of the handler: the headers it
set, how it terminated, whether the rate limiter was consulted, the audit
record it dispatched (if any), and the rate-limit store it leaves
behind. -/
structure HandlerResult where
  headers : List (String × String)
  outcome : Outcome
  rateLimiterChecked : Bool
  audit : Option AuditRecord
  store : Store
deriving DecidableEq

/-- Go `graphqlMiddleware`'s request handler (part_000 lines 104-147),
with `now` the instant `isRateLimited` reads and `store` the current
`rateLimitStore`: set the CORS headers; short-circuit `OPTIONS`; gate on
`POST /public`; read the body; decode it, ignoring errors; sanitize and
rewrite the `query` field; re-marshal; extract the client identity; check
admission (denial responds 429 and is not audited or forwarded); dispatch
the audit record and forward the rewritten body. -/
def graphqlMiddleware (now : Int) (store : Store) (r : HttpRequest) :
    HandlerResult :=
  if r.method = "OPTIONS" then
    ⟨corsHeaders, Outcome.preflightOk, false, none, store⟩
  else if ¬(r.method = "POST" ∧ r.path = "/public") then
    ⟨corsHeaders, Outcome.notFound, false, none, store⟩
  else
    let bodyBytes := r.body.getD []
    let payload := unmarshalToMap bodyBytes
    let originalQuery := extractedQuery payload
    let cleanedQuery := sanitizeChars originalQuery
    let newBody := marshalPayload (rewriteQuery payload)
    let ip := extractClientIP r.remoteAddr
    let rl := isRateLimited now (storeGet store ip)
    let store1 := storeSet store ip rl.2
    if rl.1 then
      ⟨corsHeaders, Outcome.rateLimited, true, none, store1⟩
    else
      ⟨corsHeaders, Outcome.forwarded newBody newBody.length, true,
        some ⟨ip, String.mk originalQuery, String.mk cleanedQuery⟩, store1⟩

end Middleware

namespace Middleware

/-! ### Claims about the sanitizer and the rate limiter -/

/-- Claim C2: `sanitizeGraphQLQuery` removes every occurrence of every
denylist character, its output has no denylist character, every other
character of the input survives in the same relative order (the output is
exactly the denylist-free filter of the input, a sublist of it), and the
function is total, mapping the empty string to itself. -/
theorem C2_sanitizer_correct (query : String) :
    (∀ c ∈ (sanitizeGraphQLQuery query).data, c ∉ dangerousChars) ∧
    (sanitizeGraphQLQuery query).data =
      query.data.filter (fun c => decide (c ∉ dangerousChars)) ∧
    (sanitizeGraphQLQuery query).data.Sublist query.data ∧
    sanitizeGraphQLQuery "" = "" := by
  have hdata : (sanitizeGraphQLQuery query).data = sanitizeChars query.data := rfl
  refine ⟨?_, ?_, ?_, rfl⟩
  · intro c hc
    rw [hdata, sanitizeChars_eq_filter] at hc
    simpa using (List.mem_filter.mp hc).2
  · rw [hdata, sanitizeChars_eq_filter]
  · rw [hdata]; exact sanitizeChars_sublist query.data

/-- Claim C1: sliding-window semantics of `isRateLimited` for one client.
With `times` a burst of exactly `maxRequestsPerMinute` call instants all
within one window of each other (together with the extra instant), starting
from an unseen client: every call of the burst is allowed; the extra call
in the same window is denied; the denied call leaves the entry at exactly
the recorded burst (no timestamp is consumed by the denial); and at any
instant `late` a full window after every recorded timestamp the client is
allowed again.  The first call of an unseen client is always allowed. -/
theorem C1_rate_limiter_sliding_window (times : List Int) (extra late : Int)
    (hlen : times.length = maxRequestsPerMinute)
    (hwin : ∀ s ∈ times ++ [extra], ∀ t ∈ times ++ [extra],
      s - t ≤ rateLimitWindow)
    (hlate : ∀ t ∈ times, rateLimitWindow < late - t) :
    (∀ n : Int, (isRateLimited n []).1 = false) ∧
    (runCalls [] times).1 = List.replicate maxRequestsPerMinute false ∧
    (isRateLimited extra (runCalls [] times).2).1 = true ∧
    (isRateLimited extra (runCalls [] times).2).2 = times ∧
    (isRateLimited late (isRateLimited extra (runCalls [] times).2).2).1
      = false := by
  have hwin' : ∀ s ∈ times, ∀ t ∈ ([] : List Int) ++ times,
      s - t ≤ rateLimitWindow := by
    intro s hs t ht
    exact hwin s (List.mem_append_left _ hs) t
      (List.mem_append_left _ (by simpa using ht))
  have hrun := runCalls_all_allowed times [] hwin' (by simp [hlen])
  have hstore : (runCalls [] times).2 = times := by simpa using hrun.2
  have hpr : pruneTimestamps extra times = times := by
    apply pruneTimestamps_eq_self
    intro t ht
    exact hwin extra (List.mem_append_right _ (List.mem_singleton_self _)) t
      (List.mem_append_left _ ht)
  have hden : isRateLimited extra times = (true, times) := by
    simp [isRateLimited, hpr, hlen]
  have hlatepr : pruneTimestamps late times = [] :=
    pruneTimestamps_eq_nil late times hlate
  refine ⟨?_, ?_, ?_, ?_, ?_⟩
  · intro n
    simp [isRateLimited, pruneTimestamps, maxRequestsPerMinute]
  · simpa [hlen] using hrun.1
  · rw [hstore, hden]
  · rw [hstore, hden]
  · rw [hstore, hden]
    simp [isRateLimited, hlatepr, maxRequestsPerMinute]

/-- Concrete instance of C1: fifty calls at nanoseconds 0..49 are all
allowed from a fresh client, and a further call at nanosecond 50 is
denied. -/
theorem C1_rate_limiter_sliding_window_witness :
    (runCalls [] ((List.range 50).map (fun i => (i : Int)))).1 =
      List.replicate maxRequestsPerMinute false ∧
    (isRateLimited 50
      (runCalls [] ((List.range 50).map (fun i => (i : Int)))).2).1 = true := by
  have h := C1_rate_limiter_sliding_window
    ((List.range 50).map (fun i => (i : Int))) 50 1000000000000
    (by decide) (by decide) (by decide)
  exact ⟨h.2.1, h.2.2.1⟩

/-- Claim C9: after any admission check, every timestamp the entry retains
lies within the window of the `now` of that check (given that stored
timestamps never lie in the future of `now`); pruning a fully stale entry
leaves it empty, and a client whose entry prunes to empty gets exactly the
behaviour of an unseen client. -/
theorem C9_table_invariant (now : Int) (entry : List Int)
    (hmono : ∀ t ∈ entry, t ≤ now) :
    (∀ t ∈ (isRateLimited now entry).2,
        now - rateLimitWindow ≤ t ∧ t ≤ now) ∧
    ((∀ t ∈ entry, rateLimitWindow < now - t) →
        pruneTimestamps now entry = [] ∧
        isRateLimited now entry = isRateLimited now []) := by
  have hwinpos : (0 : Int) ≤ rateLimitWindow := by decide
  constructor
  · intro t ht
    by_cases h : maxRequestsPerMinute ≤ (pruneTimestamps now entry).length
    · simp only [isRateLimited, h, if_pos] at ht
      obtain ⟨htm, htw⟩ := mem_pruneTimestamps ht
      exact ⟨by omega, hmono t htm⟩
    · simp only [isRateLimited, h, if_neg, not_false_iff,
        List.mem_append, List.mem_singleton] at ht
      rcases ht with ht | rfl
      · obtain ⟨htm, htw⟩ := mem_pruneTimestamps ht
        exact ⟨by omega, hmono t htm⟩
      · exact ⟨by omega, le_refl _⟩
  · intro hstale
    have hpr : pruneTimestamps now entry = [] :=
      pruneTimestamps_eq_nil now entry hstale
    refine ⟨hpr, ?_⟩
    have h0 : pruneTimestamps now ([] : List Int) = [] := rfl
    simp [isRateLimited, hpr, h0, maxRequestsPerMinute]

/-- Concrete instance of C9: a client whose only recorded timestamp is a
full window stale is treated exactly like an unseen client, its entry
having pruned to empty. -/
theorem C9_table_invariant_witness :
    pruneTimestamps 100 [(-1000000000000 : Int)] = [] ∧
    isRateLimited 100 [(-1000000000000 : Int)] = isRateLimited 100 [] := by
  exact (C9_table_invariant 100 [(-1000000000000 : Int)] (by decide)).2
    (by decide)

/-- Claim C3 (refuted by the code): the shared `rateLimitStore` map is
accessed by `isRateLimited` with no lock, so the read-modify-write is not
atomic per client.  Under the interleaving in which 51 concurrent handlers
for one client all read the (empty) entry before any of them writes, all
51 are admitted, where the claim demands that exactly
`maxRequestsPerMinute` be admitted; a sequential (atomic) execution of the
same 51 calls does admit exactly the limit and deny the last. -/
theorem C3_unsynchronized_race_overadmits :
    (racyRun [] (List.replicate 51 0)).1 = List.replicate 51 false ∧
    (runCalls [] (List.replicate 51 0)).1 =
      List.replicate maxRequestsPerMinute false ++ [true] ∧
    maxRequestsPerMinute < 51 := by
  exact ⟨by decide, by decide, by decide⟩

/-- Claim C8: the derived client identity is the host part of the remote
address with the port split off; the IPv6 loopback literal maps onto
`127.0.0.1`, so both loopback address forms land in one rate-limit bucket;
a malformed remote address yields the raw address string verbatim; the
extraction is a total function and never fails the request. -/
theorem C8_client_identity (addr host port : String)
    (h : splitHostPort addr = some (host, port)) :
    extractClientIP addr = (if host = "::1" then "127.0.0.1" else host) ∧
    (∀ a : String, splitHostPort a = none → extractClientIP a = a) ∧
    extractClientIP "[::1]:8080" = "127.0.0.1" ∧
    extractClientIP "127.0.0.1:9090" = "127.0.0.1" ∧
    extractClientIP "garbage-no-port" = "garbage-no-port" := by
  refine ⟨?_, ?_, by decide, by decide, by decide⟩
  · simp [extractClientIP, h]
  · intro a ha
    simp [extractClientIP, ha]

/-- Concrete instance of C8: a well-formed IPv4 remote address is mapped
onto its host part. -/
theorem C8_client_identity_witness :
    splitHostPort "10.0.0.7:443" = some ("10.0.0.7", "443") ∧
    extractClientIP "10.0.0.7:443" =
      (if "10.0.0.7" = "::1" then "127.0.0.1" else "10.0.0.7") := by
  exact ⟨by decide,
    (C8_client_identity "10.0.0.7:443" "10.0.0.7" "443" (by decide)).1⟩

/-- Claim C6 as stated is refuted: `modifyResponse` deletes only the four
`Access-Control-Allow-*` names, so a cross-origin header such as
`Access-Control-Max-Age` emitted by the upstream survives into the relayed
response even though the origin policy never set it. -/
theorem C6_counterexample_max_age :
    isCORSResponseHeader "Access-Control-Max-Age" = true ∧
    (modifyResponse ⟨[("Access-Control-Max-Age", "600")], []⟩).headers =
      [("Access-Control-Max-Age", "600")] := by
  exact ⟨by decide, by decide⟩

/-- Claim C6, amended: exactly the four `Access-Control-Allow-*` headers
(Origin, Methods, Headers, Credentials) are removed from the upstream
response — so those can no longer conflict with the origin policy's values
— while every other upstream header survives unchanged and in order, and
the body is relayed untouched. -/
theorem C6_upstream_cors_stripping (resp : UpstreamResponse) :
    (∀ h ∈ (modifyResponse resp).headers, h.1 ∉ corsStrippedNames) ∧
    (∀ h ∈ resp.headers, h.1 ∉ corsStrippedNames →
      h ∈ (modifyResponse resp).headers) ∧
    (modifyResponse resp).headers.Sublist resp.headers ∧
    (modifyResponse resp).body = resp.body := by
  refine ⟨?_, ?_, ?_, rfl⟩
  · intro h hh
    have := (List.mem_filter.mp hh).2
    simpa using this
  · intro h hh hnot
    exact List.mem_filter.mpr ⟨hh, by simpa using hnot⟩
  · exact List.filter_sublist resp.headers

/-! ### Pipeline lemmas -/

theorem lookupField_insert_self (k : String) (v : Json)
    (fs : List (String × Json)) :
    lookupField (objInsertSorted k v fs) k = some v := by
  induction fs with
  | nil =>
    simp only [objInsertSorted, lookupField, eq_self_iff_true, if_true]
  | cons p rest ih =>
    obtain ⟨a, b⟩ := p
    by_cases h1 : k = a
    · subst h1
      simp only [objInsertSorted, lookupField, eq_self_iff_true, if_true]
    · by_cases h2 : k.data < a.data
      · simp only [objInsertSorted, if_neg h1, if_pos h2, lookupField,
          eq_self_iff_true, if_true]
      · simp only [objInsertSorted, if_neg h1, if_neg h2, lookupField]
        rw [if_neg (fun h => h1 h.symm), ih]

theorem lookupField_insert_other (k k' : String) (v : Json)
    (fs : List (String × Json)) (hne : k' ≠ k) :
    lookupField (objInsertSorted k v fs) k' = lookupField fs k' := by
  have hkk : ¬ k = k' := fun h => hne h.symm
  induction fs with
  | nil => simp only [objInsertSorted, lookupField, if_neg hkk]
  | cons p rest ih =>
    obtain ⟨a, b⟩ := p
    by_cases h1 : k = a
    · subst h1
      simp only [objInsertSorted, lookupField, eq_self_iff_true, if_true]
      rw [if_neg hkk, if_neg hkk]
    · by_cases h2 : k.data < a.data
      · simp only [objInsertSorted, if_neg h1, if_pos h2, lookupField]
        rw [if_neg hkk]
      · simp only [objInsertSorted, if_neg h1, if_neg h2, lookupField]
        by_cases h4 : a = k'
        · rw [if_pos h4, if_pos h4]
        · rw [if_neg h4, if_neg h4, ih]

/-- The handler on a request that passes the route gate, written as one
admission-check case split. -/
theorem graphqlMiddleware_post (now : Int) (store : Store) (r : HttpRequest)
    (hm : r.method = "POST") (hp : r.path = "/public") :
    graphqlMiddleware now store r =
      if (isRateLimited now (storeGet store (extractClientIP r.remoteAddr))).1
      then
        ⟨corsHeaders, Outcome.rateLimited, true, none,
          storeSet store (extractClientIP r.remoteAddr)
            (isRateLimited now
              (storeGet store (extractClientIP r.remoteAddr))).2⟩
      else
        ⟨corsHeaders,
          Outcome.forwarded
            (marshalPayload (rewriteQuery (unmarshalToMap (r.body.getD []))))
            (marshalPayload
              (rewriteQuery (unmarshalToMap (r.body.getD [])))).length,
          true,
          some ⟨extractClientIP r.remoteAddr,
            String.mk (extractedQuery (unmarshalToMap (r.body.getD []))),
            String.mk
              (sanitizeChars (extractedQuery (unmarshalToMap (r.body.getD []))))⟩,
          storeSet store (extractClientIP r.remoteAddr)
            (isRateLimited now
              (storeGet store (extractClientIP r.remoteAddr))).2⟩ := by
  simp [graphqlMiddleware, hm, hp]

/-- Claim C4: an `OPTIONS` request is answered immediately with the three
configured CORS headers, status 200 and an empty body; the rate limiter is
not consulted, the store is untouched, no audit record is dispatched, and
nothing is forwarded — the preflight check runs before the route gate. -/
theorem C4_preflight_short_circuit (now : Int) (store : Store)
    (r : HttpRequest) (h : r.method = "OPTIONS") :
    graphqlMiddleware now store r =
      ⟨corsHeaders, Outcome.preflightOk, false, none, store⟩ ∧
    responseStatus Outcome.preflightOk = some 200 ∧
    responseBody Outcome.preflightOk = some [] := by
  refine ⟨?_, rfl, rfl⟩
  simp [graphqlMiddleware, h]

/-- Concrete instance of C4: an `OPTIONS` request to any path
short-circuits. -/
theorem C4_preflight_short_circuit_witness :
    graphqlMiddleware 0 [] ⟨"OPTIONS", "/public", none, "1.2.3.4:80"⟩ =
      ⟨corsHeaders, Outcome.preflightOk, false, none, []⟩ :=
  (C4_preflight_short_circuit 0 []
    ⟨"OPTIONS", "/public", none, "1.2.3.4:80"⟩ rfl).1

/-- Claim C5: on a request that passes the route gate whose body does not
decode to a payload carrying a string `query` field (malformed JSON, a nil
body, or no string `query`), the pipeline does not fail: the original and
sanitized queries are both empty, the payload is passed on without any
query rewrite, and the request is forwarded upstream — unless the rate
limiter denies it, which is the only other possible outcome. -/
theorem C5_decode_failure_recovery (now : Int) (store : Store)
    (r : HttpRequest) (hm : r.method = "POST") (hp : r.path = "/public")
    (hq : ∀ fields, unmarshalToMap (r.body.getD []) = some fields →
      ∀ q, lookupField fields "query" ≠ some (Json.str q)) :
    ((graphqlMiddleware now store r).outcome = Outcome.rateLimited ∨
      (graphqlMiddleware now store r).outcome =
        Outcome.forwarded (marshalPayload (unmarshalToMap (r.body.getD [])))
          (marshalPayload (unmarshalToMap (r.body.getD []))).length) ∧
    ((graphqlMiddleware now store r).audit = none ∨
      (graphqlMiddleware now store r).audit =
        some ⟨extractClientIP r.remoteAddr, "", ""⟩) ∧
    ((graphqlMiddleware now store r).outcome = Outcome.rateLimited ↔
      (isRateLimited now
        (storeGet store (extractClientIP r.remoteAddr))).1 = true) := by
  have hpay : rewriteQuery (unmarshalToMap (r.body.getD [])) =
      unmarshalToMap (r.body.getD []) := by
    cases hcase : unmarshalToMap (r.body.getD []) with
    | none => rfl
    | some fields =>
      cases hl : lookupField fields "query" with
      | none => simp [rewriteQuery, hl]
      | some v =>
        cases v with
        | str q => exact absurd hl (hq fields hcase q)
        | null => simp [rewriteQuery, hl]
        | bool b => simp [rewriteQuery, hl]
        | num n => simp [rewriteQuery, hl]
        | arr xs => simp [rewriteQuery, hl]
        | obj fs => simp [rewriteQuery, hl]
  have horig : extractedQuery (unmarshalToMap (r.body.getD [])) = [] := by
    cases hcase : unmarshalToMap (r.body.getD []) with
    | none => rfl
    | some fields =>
      cases hl : lookupField fields "query" with
      | none => simp [extractedQuery, hl]
      | some v =>
        cases v with
        | str q => exact absurd hl (hq fields hcase q)
        | null => simp [extractedQuery, hl]
        | bool b => simp [extractedQuery, hl]
        | num n => simp [extractedQuery, hl]
        | arr xs => simp [extractedQuery, hl]
        | obj fs => simp [extractedQuery, hl]
  rw [graphqlMiddleware_post now store r hm hp]
  by_cases hrl :
      (isRateLimited now (storeGet store (extractClientIP r.remoteAddr))).1
  · simp [hrl]
  · simp only [hrl, if_neg, Bool.false_eq_true, not_false_iff, if_false]
    refine ⟨Or.inr ?_, Or.inr ?_, ?_⟩
    · rw [hpay]
    · rw [horig]
      rfl
    · simp [hrl]

/-- Concrete instance of C5: a body that is not JSON at all is treated as
an empty payload and the request is still forwarded (as the re-marshalled
nil payload, the four bytes of `null`). -/
theorem C5_decode_failure_recovery_witness :
    (graphqlMiddleware 0 []
        ⟨"POST", "/public", some ('n' :: 'o' :: 't' :: []),
          "9.9.9.9:1"⟩).outcome = Outcome.rateLimited ∨
    (graphqlMiddleware 0 []
        ⟨"POST", "/public", some ('n' :: 'o' :: 't' :: []),
          "9.9.9.9:1"⟩).outcome =
      Outcome.forwarded
        (marshalPayload (unmarshalToMap
          ((some ('n' :: 'o' :: 't' :: []) : Option (List Char)).getD [])))
        (marshalPayload (unmarshalToMap
          ((some ('n' :: 'o' :: 't' :: []) : Option (List Char)).getD
            []))).length :=
  (C5_decode_failure_recovery 0 []
    ⟨"POST", "/public", some ('n' :: 'o' :: 't' :: []), "9.9.9.9:1"⟩
    rfl rfl
    (by
      intro fields hf
      rw [show unmarshalToMap
          ((some ('n' :: 'o' :: 't' :: []) : Option (List Char)).getD [])
          = none from rfl] at hf
      exact Option.noConfusion hf)).1

/-- Claim C7: when the body decodes as a JSON object, every field other
than `query` is carried into the forwarded payload with the same name and
value, `query` is overwritten with its sanitized form exactly when it was
present as a string (a non-string or absent `query` leaves the payload
untouched), and the forwarded body is that payload's re-marshalling with
the outbound content length equal to its byte length. -/
theorem C7_unknown_field_passthrough (now : Int) (store : Store)
    (r : HttpRequest) (fields : List (String × Json))
    (hm : r.method = "POST") (hp : r.path = "/public")
    (hdec : unmarshalToMap (r.body.getD []) = some fields)
    (hallow : (isRateLimited now
      (storeGet store (extractClientIP r.remoteAddr))).1 = false) :
    ∃ fields',
      rewriteQuery (some fields) = some fields' ∧
      (graphqlMiddleware now store r).outcome =
        Outcome.forwarded (encodeJson (Json.obj fields'))
          (encodeJson (Json.obj fields')).length ∧
      (∀ k, k ≠ "query" → lookupField fields' k = lookupField fields k) ∧
      (∀ q, lookupField fields "query" = some (Json.str q) →
        lookupField fields' "query" = some (Json.str (sanitizeChars q))) ∧
      ((∀ q, lookupField fields "query" ≠ some (Json.str q)) →
        fields' = fields) := by
  have hout : (graphqlMiddleware now store r).outcome =
      Outcome.forwarded
        (marshalPayload (rewriteQuery (unmarshalToMap (r.body.getD []))))
        (marshalPayload
          (rewriteQuery (unmarshalToMap (r.body.getD [])))).length := by
    rw [graphqlMiddleware_post now store r hm hp, hallow]
    simp
  cases hl : lookupField fields "query" with
  | some v =>
    cases v with
    | str q =>
      refine ⟨objInsertSorted "query" (Json.str (sanitizeChars q)) fields,
        by simp [rewriteQuery, hl], ?_, ?_, ?_, ?_⟩
      · rw [hout, hdec]
        simp [rewriteQuery, hl, marshalPayload]
      · intro k hk
        exact lookupField_insert_other "query" k _ fields hk
      · intro q' hq'
        obtain rfl : q = q' := by
          injection hq' with h
          injection h
        exact lookupField_insert_self "query" _ fields
      · intro hno
        exact absurd rfl (hno q)
    | null =>
      refine ⟨fields, by simp [rewriteQuery, hl], ?_, ?_, ?_, fun _ => rfl⟩
      · rw [hout, hdec]
        simp [rewriteQuery, hl, marshalPayload]
      · intro k _; rfl
      · intro q hq'
        exact absurd hq' (by simp)
    | bool b =>
      refine ⟨fields, by simp [rewriteQuery, hl], ?_, ?_, ?_, fun _ => rfl⟩
      · rw [hout, hdec]
        simp [rewriteQuery, hl, marshalPayload]
      · intro k _; rfl
      · intro q hq'
        exact absurd hq' (by simp)
    | num n =>
      refine ⟨fields, by simp [rewriteQuery, hl], ?_, ?_, ?_, fun _ => rfl⟩
      · rw [hout, hdec]
        simp [rewriteQuery, hl, marshalPayload]
      · intro k _; rfl
      · intro q hq'
        exact absurd hq' (by simp)
    | arr xs =>
      refine ⟨fields, by simp [rewriteQuery, hl], ?_, ?_, ?_, fun _ => rfl⟩
      · rw [hout, hdec]
        simp [rewriteQuery, hl, marshalPayload]
      · intro k _; rfl
      · intro q hq'
        exact absurd hq' (by simp)
    | obj fs =>
      refine ⟨fields, by simp [rewriteQuery, hl], ?_, ?_, ?_, fun _ => rfl⟩
      · rw [hout, hdec]
        simp [rewriteQuery, hl, marshalPayload]
      · intro k _; rfl
      · intro q hq'
        exact absurd hq' (by simp)
  | none =>
    refine ⟨fields, by simp [rewriteQuery, hl], ?_, ?_, ?_, fun _ => rfl⟩
    · rw [hout, hdec]
      simp [rewriteQuery, hl, marshalPayload]
    · intro k _; rfl
    · intro q hq'
      exact absurd hq' (by simp)

/-- Concrete instance of C7: the body `{"a":1,"query":"x;y"}` is forwarded
as `{"a":1,"query":"xy"}` — the unknown field `a` survives unmodified and
the query is sanitized in place. -/
theorem C7_unknown_field_passthrough_witness :
    (graphqlMiddleware 0 []
        ⟨"POST", "/public",
          some ('{' :: '"' :: 'a' :: '"' :: ':' :: '1' :: ',' :: '"' ::
            'q' :: 'u' :: 'e' :: 'r' :: 'y' :: '"' :: ':' :: '"' :: 'x' ::
            ';' :: 'y' :: '"' :: '}' :: []),
          "7.7.7.7:7"⟩).outcome =
      Outcome.forwarded
        ('{' :: '"' :: 'a' :: '"' :: ':' :: '1' :: ',' :: '"' :: 'q' ::
          'u' :: 'e' :: 'r' :: 'y' :: '"' :: ':' :: '"' :: 'x' :: 'y' ::
          '"' :: '}' :: [])
        20 := by
  obtain ⟨fields', heq, hout, -, -, -⟩ :=
    C7_unknown_field_passthrough 0 []
      ⟨"POST", "/public",
        some ('{' :: '"' :: 'a' :: '"' :: ':' :: '1' :: ',' :: '"' ::
          'q' :: 'u' :: 'e' :: 'r' :: 'y' :: '"' :: ':' :: '"' :: 'x' ::
          ';' :: 'y' :: '"' :: '}' :: []),
        "7.7.7.7:7"⟩
      [("a", Json.num 1), ("query", Json.str ('x' :: ';' :: 'y' :: []))]
      rfl rfl (by rfl) (by rfl)
  rw [hout]
  rw [show rewriteQuery
      (some [("a", Json.num 1),
        ("query", Json.str ('x' :: ';' :: 'y' :: []))]) =
      some [("a", Json.num 1),
        ("query", Json.str ('x' :: 'y' :: []))] from rfl] at heq
  obtain rfl := Option.some.inj heq
  rfl

/-- Claim C10: past the route gate the forwarded body is always the JSON
re-serialization of the decoded payload map; a body that fails to decode
leaves the map nil and is forwarded as the four-byte literal `null` with
content length 4; and even a valid JSON object body with no `query` field
is re-encoded rather than relayed byte for byte, as the whitespace-only
difference on `{ }` shows. -/
theorem C10_body_reserialized (now : Int) (store : Store) (r : HttpRequest)
    (hm : r.method = "POST") (hp : r.path = "/public")
    (hallow : (isRateLimited now
      (storeGet store (extractClientIP r.remoteAddr))).1 = false) :
    (graphqlMiddleware now store r).outcome =
      Outcome.forwarded
        (marshalPayload (rewriteQuery (unmarshalToMap (r.body.getD []))))
        (marshalPayload
          (rewriteQuery (unmarshalToMap (r.body.getD [])))).length ∧
    (unmarshalToMap (r.body.getD []) = none →
      (graphqlMiddleware now store r).outcome =
        Outcome.forwarded ('n' :: 'u' :: 'l' :: 'l' :: []) 4) ∧
    (graphqlMiddleware 0 []
        ⟨"POST", "/public", some (' ' :: '{' :: ' ' :: '}' :: []),
          "8.8.8.8:53"⟩).outcome =
      Outcome.forwarded ('{' :: '}' :: []) 2 ∧
    (' ' :: '{' :: ' ' :: '}' :: [] : List Char) ≠ '{' :: '}' :: [] := by
  have hout : (graphqlMiddleware now store r).outcome =
      Outcome.forwarded
        (marshalPayload (rewriteQuery (unmarshalToMap (r.body.getD []))))
        (marshalPayload
          (rewriteQuery (unmarshalToMap (r.body.getD [])))).length := by
    rw [graphqlMiddleware_post now store r hm hp, hallow]
    simp
  refine ⟨hout, ?_, by rfl, by decide⟩
  intro hnil
  rw [hout, hnil]
  rfl

/-- Concrete instance of C10: a request with a nil body decodes to a nil
payload and is forwarded as the literal `null` with content length 4. -/
theorem C10_body_reserialized_witness :
    (graphqlMiddleware 0 []
        ⟨"POST", "/public", none, "6.6.6.6:6"⟩).outcome =
      Outcome.forwarded ('n' :: 'u' :: 'l' :: 'l' :: []) 4 :=
  (C10_body_reserialized 0 [] ⟨"POST", "/public", none, "6.6.6.6:6"⟩
    rfl rfl (by rfl)).2.1 rfl

end Middleware
